import Mathlib

/-!
Verification development for the `sarek-processing` repository.

This file gives a shallow embedding of the parts of the repository that the
checked claims are about:

* `s01_generate_sarek_fastq_input.py` — the FASTQ pair resolver
  (`collect_samples`) and the manifest writer (`write_csv`).  Filenames are
  embedded as `String` / `List Char`; the regular expressions of the script
  are compiled by hand into executable decision procedures on `List Char`,
  together with declarative predicates used to state the claims.  A directory
  tree (the result of `os.walk`) is embedded as a list of
  `(root, files in root)` entries; `os.path.exists` on a sibling path becomes
  membership in the same entry's file list.
* `utils.py` — `format_runtime` (called on whole numbers of seconds,
  embedded as `Nat`).
* `s02_run_sarek_annotation.py` — the post-parse control flow of `main`
  (required-key validation, input check, conda-env check, pipeline
  invocation), embedded as a function into an outcome type.
-/

namespace SarekProc

/-- Boolean prefix test on character lists (used to embed substring search of
`str.replace` and of the unanchored parts of the regexes). -/
def isPre : List Char → List Char → Bool
  | [], _ => true
  | _ :: _, [] => false
  | a :: as, b :: bs => a == b && isPre as bs

/-- Fuel-indexed worker for `replaceAll`; the fuel only bounds the recursion
depth (one character of the input is consumed per step), so
`replaceAll` below is Python's `str.replace`: replace every non-overlapping
occurrence of `pat`, scanning left to right. -/
def replaceAllFuel : Nat → List Char → List Char → List Char → List Char
  | 0, _, _, s => s
  | _ + 1, _, _, [] => []
  | fuel + 1, pat, repl, c :: cs =>
      if isPre pat (c :: cs) && !pat.isEmpty then
        repl ++ replaceAllFuel fuel pat repl ((c :: cs).drop pat.length)
      else
        c :: replaceAllFuel fuel pat repl cs

/-- Python `s.replace(pat, repl)` on character lists (for nonempty `pat`). -/
def replaceAll (pat repl s : List Char) : List Char :=
  replaceAllFuel s.length pat repl s

/-- Python `f.replace(pat, repl)` on strings. -/
def strReplace (pat repl f : String) : String :=
  ⟨replaceAll pat.data repl.data f.data⟩

/-- The fastq extensions accepted by `\.f(ast)?q(\.gz)?$`. -/
def fqExtOnly (s : List Char) : Bool :=
  s == ".fastq.gz".data || s == ".fastq".data || s == ".fq.gz".data || s == ".fq".data

/-- `(_\d+)?\.f(ast)?q(\.gz)?$`: an optional ordinal block (underscore plus a
nonempty digit run) followed by a fastq extension, consuming the whole list. -/
def ordTailExt (s : List Char) : Bool :=
  fqExtOnly s ||
  (match s with
   | '_' :: r => (!(r.takeWhile Char.isDigit).isEmpty) && fqExtOnly (r.dropWhile Char.isDigit)
   | _ => false)

/-- Tail of the first R1 regex after the stem: `_1(_\d+)?\.f(ast)?q(\.gz)?$`. -/
def pat1Tail : List Char → Bool
  | '_' :: '1' :: r => ordTailExt r
  | _ => false

/-- Tail of the second R1 regex after the stem: `_R1(_\d+)?\.f(ast)?q(\.gz)?$`. -/
def pat2Tail : List Char → Bool
  | '_' :: 'R' :: '1' :: r => ordTailExt r
  | _ => false

/-- `re.search` of a `$`-anchored pattern whose head is `(.+)`: the tail
pattern must match some proper (nonempty-stem) suffix of the name. -/
def searchTail (p : List Char → Bool) : List Char → Bool
  | [] => false
  | _ :: cs => p cs || searchTail p cs

/-- `re.search(r"(.+)_1(_\d+)?\.f(ast)?q(\.gz)?$", f)` as a Boolean. -/
def matchesPattern1 (f : List Char) : Bool := searchTail pat1Tail f

/-- `re.search(r"(.+)_R1(_\d+)?\.f(ast)?q(\.gz)?$", f)` as a Boolean. -/
def matchesPattern2 (f : List Char) : Bool := searchTail pat2Tail f

/-- Terminator class `[._]` of the lane regex, applied to the character that
follows the digit run (if any). -/
def laneTermOk (o : Option Char) : Bool := o == some '.' || o == some '_'

/-- `re.search(r"_L(\d+)[._]", f)`: the digit group of the leftmost position
where `_L`, a nonempty digit run and a `.`/`_` terminator occur.  (At a given
start position the digit run of a match is necessarily the maximal one, since
the terminator is not a digit.) -/
def findLane : List Char → Option (List Char)
  | [] => none
  | c :: cs =>
      match c, cs with
      | '_', 'L' :: rest =>
          if (!(rest.takeWhile Char.isDigit).isEmpty) &&
              laneTermOk (rest.dropWhile Char.isDigit).head? then
            some (rest.takeWhile Char.isDigit)
          else findLane cs
      | _, _ => findLane cs

/-- `lane_match.group(1) if lane_match else "1"` of the script. -/
def lane (f : List Char) : String :=
  match findLane f with
  | some ds => ⟨ds⟩
  | none => "1"

/-- `(_00\d)?\.f(ast)?q(\.gz)?$` — the ordinal block accepted by the
sample-name substitution, followed by an extension, consuming the whole list. -/
def subOrdExt (s : List Char) : Bool :=
  fqExtOnly s ||
  (match s with
   | '_' :: '0' :: '0' :: d :: rest => d.isDigit && fqExtOnly rest
   | _ => false)

/-- `(_R?1)(_00\d)?\.f(ast)?q(\.gz)?$` consuming the whole list. -/
def subTagTail : List Char → Bool
  | '_' :: 'R' :: '1' :: r => subOrdExt r
  | '_' :: '1' :: r => subOrdExt r
  | _ => false

/-- Whole-suffix match of `(_L\d+)?(_R?1)(_00\d)?\.f(ast)?q(\.gz)?$`: does the
given list, in its entirety, match the substituted pattern?  (When the lane
group is present, its digit run is necessarily maximal, since the mate tag
starts with `_`.) -/
def stripMatch (s : List Char) : Bool :=
  subTagTail s ||
  (match s with
   | '_' :: 'L' :: rest =>
       (!(rest.takeWhile Char.isDigit).isEmpty) && subTagTail (rest.dropWhile Char.isDigit)
   | _ => false)

/-- `re.sub(r"(_L\d+)?(_R?1)(_00\d)?\.f(ast)?q(\.gz)?$", "", f)`: since the
pattern is anchored at the end, the substitution deletes the suffix starting
at the leftmost position whose whole suffix matches, and leaves the name
unchanged when no suffix matches. -/
def sampleNameChars : List Char → List Char
  | [] => []
  | c :: cs => if stripMatch (c :: cs) then [] else c :: sampleNameChars cs

/-- The `sample_name` computed by `collect_samples` for a matched file. -/
def sample_name (f : String) : String := ⟨sampleNameChars f.data⟩

/-- Prefix test for `\.f(ast)?q` (not anchored at the end). -/
def fqPre (s : List Char) : Bool := isPre ".fq".data s || isPre ".fastq".data s

/-- `(_\d+)?\.f(ast)?q` as a prefix of the rest of the name. -/
def looseOrd (s : List Char) : Bool :=
  fqPre s ||
  (match s with
   | '_' :: r => (!(r.takeWhile Char.isDigit).isEmpty) && fqPre (r.dropWhile Char.isDigit)
   | _ => false)

/-- One alternative of the loose pattern starting at the current position. -/
def looseTail : List Char → Bool
  | '_' :: 'R' :: '1' :: r => looseOrd r
  | '_' :: '1' :: r => looseOrd r
  | _ => false

/-- `re.search(r"(_1(_\d+)?\.f(ast)?q)|(_R1(_\d+)?\.f(ast)?q)", f)`:
the looser looks-like-R1 check of the script. -/
def looksLikeR1 : List Char → Bool
  | [] => false
  | c :: cs => looseTail (c :: cs) || looksLikeR1 cs

/-- A resolved pair `(sample_name, lane, r1_path, r2_path)`, exactly the tuple
appended to `samples` by `collect_samples`. -/
abbrev SamplePair := String × String × String × String

/-- `os.path.join(root, f)` for the simple names produced here. -/
def pathJoin (root f : String) : String := root ++ "/" ++ f

/-- The R2 name the script computes for a recognized R1 file: the tag pair of
the first matching pattern is used, and `str.replace` substitutes it. -/
def expectedR2 (f : String) : String :=
  if matchesPattern1 f.data then strReplace "_1" "_2" f else strReplace "_R1" "_R2" f

/-- What one file contributes inside the walk of `collect_samples`:
`some (.inl pair)` when it is a recognized R1 whose computed R2 exists in the
same directory, `some (.inr f)` when it is a recognized R1 with the computed
R2 missing, `none` otherwise (in particular for files that only pass the
loose looks-like-R1 warning check). -/
def fileResult (root : String) (files : List String) (f : String) :
    Option (SamplePair ⊕ String) :=
  if matchesPattern1 f.data then
    (if strReplace "_1" "_2" f ∈ files then
      some (Sum.inl (sample_name f, lane f.data, pathJoin root f,
        pathJoin root (strReplace "_1" "_2" f)))
    else some (Sum.inr f))
  else if matchesPattern2 f.data then
    (if strReplace "_R1" "_R2" f ∈ files then
      some (Sum.inl (sample_name f, lane f.data, pathJoin root f,
        pathJoin root (strReplace "_R1" "_R2" f)))
    else some (Sum.inr f))
  else none

/-- The contributions of the files `fs` of a directory `root` whose complete
file listing is `all` (the existence check for R2 consults `all`). -/
def processDir (root : String) (all fs : List String) : List (SamplePair ⊕ String) :=
  fs.filterMap (fileResult root all)

/-- All contributions of a walked directory tree, in walk order. -/
def collectResults (dirs : List (String × List String)) : List (SamplePair ⊕ String) :=
  (dirs.map (fun d => processDir d.1 d.2 d.2)).flatten

/-- The `samples` list built by `collect_samples`. -/
def pairsOf (rs : List (SamplePair ⊕ String)) : List SamplePair :=
  rs.filterMap (fun r => match r with | Sum.inl p => some p | Sum.inr _ => none)

/-- The `unmatched_r1` list built by `collect_samples`. -/
def unmatchedOf (rs : List (SamplePair ⊕ String)) : List String :=
  rs.filterMap (fun r => match r with | Sum.inl _ => none | Sum.inr f => some f)

/-- `collect_samples(fastq_dir)` of the script: the resolved pairs and the
unmatched R1 names, over an embedded directory tree. -/
def collect_samples (dirs : List (String × List String)) :
    List SamplePair × List String :=
  (pairsOf (collectResults dirs), unmatchedOf (collectResults dirs))

/-- Lexicographic key of a sample tuple: Python's `sorted(samples)` orders
4-tuples of strings lexicographically. -/
def pairKey (t : SamplePair) : Lex (String × Lex (String × Lex (String × String))) :=
  toLex (t.1, toLex (t.2.1, toLex (t.2.2.1, t.2.2.2)))

/-- Tuple comparison used by `sorted(samples)`. -/
def pairLe (a b : SamplePair) : Prop := pairKey a ≤ pairKey b

instance : DecidableRel pairLe := fun a b => by
  unfold pairLe; infer_instance

/-- `sorted({x[0] for x in samples})`: the distinct sample names in increasing
lexicographic order. -/
def sortedNames (samples : List SamplePair) : List String :=
  List.insertionSort (· ≤ ·) (samples.map (fun t => t.1)).dedup

/-- `{s: i+1 for i, s in enumerate(...)}`: consecutive identifiers starting at
the given seed. -/
def assignIds : Nat → List String → List (String × Nat)
  | _, [] => []
  | n, s :: rest => (s, n) :: assignIds (n + 1) rest

/-- The `patient_ids` dictionary of `write_csv`, as an association list in
insertion order. -/
def patient_ids (samples : List SamplePair) : List (String × Nat) :=
  assignIds 1 (sortedNames samples)

/-- `patient_ids[sample_name]` (total, with an irrelevant default). -/
def patientId (samples : List SamplePair) (s : String) : Nat :=
  (((patient_ids samples).lookup s).getD 0)

/-- The header row written by `write_csv`. -/
def csvHeader : List String := ["patient", "sample", "lane", "fastq_1", "fastq_2"]

/-- The row written for one sample tuple. -/
def rowOf (samples : List SamplePair) (t : SamplePair) : List String :=
  [toString (patientId samples t.1), t.1, t.2.1, t.2.2.1, t.2.2.2]

/-- `write_csv(samples, ...)`: the rows of the produced CSV file. -/
def write_csv (samples : List SamplePair) : List (List String) :=
  csvHeader :: (List.insertionSort pairLe samples).map (rowOf samples)

/-- The manifest produced by one run of the script on a directory tree. -/
def run_manifest (dirs : List (String × List String)) : List (List String) :=
  write_csv (collect_samples dirs).1

/-- `format_runtime` of `utils.py`, on a whole number of seconds. -/
def format_runtime (seconds : Nat) : String :=
  toString (seconds / 3600) ++ "h " ++ toString (seconds % 3600 / 60) ++ "m " ++
    toString (seconds % 60) ++ "s"

/-- The required top-level keys checked by `main` of
`s02_run_sarek_annotation.py`. -/
def requiredKeys : List String :=
  ["vep_cache", "fasta", "fasta_fai", "dict", "dbnsfp", "dbnsfp_tbi",
    "dbnsfp_fields", "vep_plugins"]

/-- `[k for k in required if k not in config]`. -/
def missingKeys (keys : List String) : List String :=
  requiredKeys.filter (fun k => !(keys.contains k))

/-- Outcome of the post-parse part of `main` in `s02_run_sarek_annotation.py`. -/
inductive RunOutcome where
  | abortMissingKeys : List String → RunOutcome
  | abortMissingInput : RunOutcome
  | abortMissingEnv : RunOutcome
  | pipelineInvoked : RunOutcome
deriving DecidableEq

/-- Control flow of `main` after the JSON config has been parsed: the
required-key validation (which only looks at the top-level keys), then the
input-file check, then the optional conda-env check, and only then the
invocation of the external pipeline command. -/
def annotationMain (config : List (String × String)) (inputIsFile envGiven envExists : Bool) :
    RunOutcome :=
  if !(missingKeys (config.map Prod.fst)).isEmpty then
    RunOutcome.abortMissingKeys (missingKeys (config.map Prod.fst))
  else if !inputIsFile then RunOutcome.abortMissingInput
  else if envGiven && !envExists then RunOutcome.abortMissingEnv
  else RunOutcome.pipelineInvoked

/-! ### Declarative reading of the regular expressions -/

/-- The lists matching `\.f(ast)?q(\.gz)?` in full. -/
def ExtPart (l : List Char) : Prop :=
  l = ".fastq.gz".data ∨ l = ".fastq".data ∨ l = ".fq.gz".data ∨ l = ".fq".data

/-- The lists matching `(_00\d)?` in full. -/
def OrdPart (l : List Char) : Prop :=
  l = [] ∨ ∃ d, d.isDigit = true ∧ l = ['_', '0', '0', d]

/-- The lists matching `(_R?1)` in full. -/
def TagPart (l : List Char) : Prop :=
  l = ['_', '1'] ∨ l = ['_', 'R', '1']

/-- The lists matching `(_L\d+)?` in full. -/
def LanePart (l : List Char) : Prop :=
  l = [] ∨ ∃ ds, ds ≠ [] ∧ (∀ c ∈ ds, c.isDigit = true) ∧ l = '_' :: 'L' :: ds

/-- A list that matches, in full, the pattern removed by the sample-name
substitution: `(_L\d+)?(_R?1)(_00\d)?\.f(ast)?q(\.gz)?$`. -/
def ReadSuffix (s : List Char) : Prop :=
  ∃ a b c d, LanePart a ∧ TagPart b ∧ OrdPart c ∧ ExtPart d ∧ s = a ++ b ++ c ++ d

lemma fqExtOnly_iff (s : List Char) : fqExtOnly s = true ↔ ExtPart s := by
  simp [fqExtOnly, ExtPart, Bool.or_eq_true, beq_iff_eq, or_assoc]

lemma takeWhile_all_append {p : Char → Bool} {l₁ : List Char} {c : Char} (l₂ : List Char)
    (h₁ : ∀ x ∈ l₁, p x = true) (h₂ : p c = false) :
    (l₁ ++ c :: l₂).takeWhile p = l₁ ∧ (l₁ ++ c :: l₂).dropWhile p = c :: l₂ := by
  induction l₁ with
  | nil => simp [List.takeWhile_cons, List.dropWhile_cons, h₂]
  | cons a as ih =>
      have ha : p a = true := h₁ a (by simp)
      have := ih (fun x hx => h₁ x (by simp [hx]))
      simp [List.takeWhile_cons, List.dropWhile_cons, ha, this.1, this.2]

lemma subOrdExt_iff (s : List Char) :
    subOrdExt s = true ↔ ∃ c d, OrdPart c ∧ ExtPart d ∧ s = c ++ d := by
  constructor
  · intro h
    rw [subOrdExt.eq_def, Bool.or_eq_true] at h
    rcases h with h | h
    · exact ⟨[], s, Or.inl rfl, (fqExtOnly_iff s).1 h, by simp⟩
    · split at h
      · rename_i d rest
        rcases Bool.and_eq_true_iff.mp h with ⟨hd, he⟩
        exact ⟨['_', '0', '0', d], rest, Or.inr ⟨d, hd, rfl⟩, (fqExtOnly_iff rest).1 he, rfl⟩
      · exact absurd h (by simp)
  · rintro ⟨c, d, hc, hd, rfl⟩
    rcases hc with rfl | ⟨dg, hdg, rfl⟩
    · simp [subOrdExt, (fqExtOnly_iff d).2 hd]
    · simp [subOrdExt, hdg, (fqExtOnly_iff d).2 hd]

lemma subTagTail_iff (s : List Char) :
    subTagTail s = true ↔ ∃ b r, TagPart b ∧ subOrdExt r = true ∧ s = b ++ r := by
  constructor
  · intro h
    rw [subTagTail.eq_def] at h
    split at h
    · rename_i r; exact ⟨['_', 'R', '1'], r, Or.inr rfl, h, rfl⟩
    · rename_i r; exact ⟨['_', '1'], r, Or.inl rfl, h, rfl⟩
    · exact absurd h (by simp)
  · rintro ⟨b, r, hb, hr, rfl⟩
    rcases hb with rfl | rfl
    · simpa [subTagTail] using hr
    · simpa [subTagTail] using hr

lemma isEmpty_false_of_ne_nil {α : Type*} {l : List α} (h : l ≠ []) : l.isEmpty = false := by
  cases l with
  | nil => exact absurd rfl h
  | cons a as => rfl

lemma stripMatch_iff (s : List Char) : stripMatch s = true ↔ ReadSuffix s := by
  constructor
  · intro h
    rw [stripMatch.eq_def, Bool.or_eq_true] at h
    rcases h with h | h
    · rcases (subTagTail_iff s).1 h with ⟨b, r, hb, hr, rfl⟩
      rcases (subOrdExt_iff r).1 hr with ⟨c, d, hc, hd, rfl⟩
      exact ⟨[], b, c, d, Or.inl rfl, hb, hc, hd, by simp⟩
    · split at h
      · rename_i rest
        rcases Bool.and_eq_true_iff.mp h with ⟨hne, ht⟩
        obtain ⟨tw, dw, htw, hdwE, hsplit⟩ :
            ∃ tw dw, rest.takeWhile Char.isDigit = tw ∧
              rest.dropWhile Char.isDigit = dw ∧ tw ++ dw = rest :=
          ⟨_, _, rfl, rfl, List.takeWhile_append_dropWhile _ _⟩
        rw [htw] at hne
        rw [hdwE] at ht
        have hne' : tw ≠ [] := by
          intro hnil; rw [hnil] at hne; simp at hne
        have hdig : ∀ x ∈ tw, x.isDigit = true := fun x hx =>
          List.mem_takeWhile_imp (htw.symm ▸ hx)
        rcases (subTagTail_iff _).1 ht with ⟨b, r, hb, hr, hdw⟩
        rcases (subOrdExt_iff r).1 hr with ⟨c, d, hc, hd, rfl⟩
        refine ⟨'_' :: 'L' :: tw, b, c, d, Or.inr ⟨tw, hne', hdig, rfl⟩, hb, hc, hd, ?_⟩
        rw [hdw] at hsplit
        rw [← hsplit]
        simp [List.append_assoc]
      · exact absurd h (by simp)
  · rintro ⟨a, b, c, d, ha, hb, hc, hd, rfl⟩
    have hbr : subTagTail (b ++ (c ++ d)) = true :=
      (subTagTail_iff _).2 ⟨b, c ++ d, hb, (subOrdExt_iff _).2 ⟨c, d, hc, hd, rfl⟩, rfl⟩
    rcases ha with rfl | ⟨ds, hne, hdig, rfl⟩
    · rw [stripMatch.eq_def, Bool.or_eq_true]
      exact Or.inl (by simpa [List.append_assoc] using hbr)
    · have hb' : ∃ t, b ++ (c ++ d) = '_' :: t := by
        rcases hb with rfl | rfl
        · exact ⟨'1' :: (c ++ d), by simp⟩
        · exact ⟨'R' :: '1' :: (c ++ d), by simp⟩
      rcases hb' with ⟨t, ht⟩
      have hus : ('_' : Char).isDigit = false := by decide
      have hsp := takeWhile_all_append (p := Char.isDigit) t hdig hus
      have harr : ('_' :: 'L' :: ds) ++ b ++ c ++ d = '_' :: 'L' :: (ds ++ '_' :: t) := by
        simp only [List.append_assoc, List.cons_append, List.nil_append, ht]
      rw [harr, stripMatch.eq_def, Bool.or_eq_true]
      right
      simp only [hsp.1, hsp.2]
      refine Bool.and_eq_true_iff.mpr ⟨by simp [isEmpty_false_of_ne_nil hne], ?_⟩
      rw [← ht]
      exact hbr

lemma readSuffix_ne_nil : ¬ ReadSuffix [] := by
  rintro ⟨a, b, c, d, _, hb, _, _, heq⟩
  rcases hb with rfl | rfl <;> simp at heq

lemma sampleNameChars_spec (l : List Char) :
    (∃ i, sampleNameChars l = l.take i ∧ ReadSuffix (l.drop i) ∧
      ∀ j, j < i → ¬ ReadSuffix (l.drop j)) ∨
    (sampleNameChars l = l ∧ ∀ i, ¬ ReadSuffix (l.drop i)) := by
  induction l with
  | nil =>
      right
      refine ⟨rfl, fun i => ?_⟩
      simpa using readSuffix_ne_nil
  | cons c cs ih =>
      cases hsm : stripMatch (c :: cs) with
      | true =>
          left
          refine ⟨0, by simp [sampleNameChars, hsm], ?_, fun j hj => absurd hj (by omega)⟩
          simpa using (stripMatch_iff _).1 hsm
      | false =>
          have hn : ¬ ReadSuffix (c :: cs) := fun hr => by
            simp [(stripMatch_iff _).2 hr] at hsm
          have e : sampleNameChars (c :: cs) = c :: sampleNameChars cs := by
            simp [sampleNameChars, hsm]
          rcases ih with ⟨i, h1, h2, h3⟩ | ⟨h1, h2⟩
          · left
            refine ⟨i + 1, by rw [e, h1]; rfl, by simpa using h2, fun j hj => ?_⟩
            cases j with
            | zero => simpa using hn
            | succ j' => simpa using h3 j' (by omega)
          · right
            refine ⟨by rw [e, h1], fun i => ?_⟩
            cases i with
            | zero => simpa using hn
            | succ i' => simpa using h2 i'

/-! ### Declarative reading of the lane regex -/

/-- `ds` is the digit group of a match of `_L(\d+)[._]` inside `l`. -/
def LaneDigits (l ds : List Char) : Prop :=
  ∃ pre c post, l = pre ++ '_' :: 'L' :: (ds ++ c :: post) ∧ ds ≠ [] ∧
    (∀ x ∈ ds, x.isDigit = true) ∧ (c = '.' ∨ c = '_')

/-- `l` contains a match of `_L(\d+)[._]`. -/
def HasLaneToken (l : List Char) : Prop := ∃ ds, LaneDigits l ds

lemma laneDigits_cons (c : Char) {cs ds : List Char} :
    LaneDigits cs ds → LaneDigits (c :: cs) ds :=
  fun ⟨pre, c0, post, heq, h1, h2, h3⟩ =>
    ⟨c :: pre, c0, post, by rw [heq]; rfl, h1, h2, h3⟩

lemma findLane_cons (c : Char) (cs : List Char) :
    findLane (c :: cs) =
      match c, cs with
      | '_', 'L' :: rest =>
          if (!(rest.takeWhile Char.isDigit).isEmpty) &&
              laneTermOk (rest.dropWhile Char.isDigit).head? then
            some (rest.takeWhile Char.isDigit)
          else findLane cs
      | _, _ => findLane cs := rfl

lemma findLane_eq_L (rest : List Char) :
    findLane ('_' :: 'L' :: rest) =
      if (!(rest.takeWhile Char.isDigit).isEmpty) &&
          laneTermOk (rest.dropWhile Char.isDigit).head? then
        some (rest.takeWhile Char.isDigit)
      else findLane ('L' :: rest) := rfl

lemma findLane_eq_other (c : Char) (cs : List Char)
    (h : ∀ rest, c = '_' → cs = 'L' :: rest → False) : findLane (c :: cs) = findLane cs := by
  rw [findLane_cons]
  split
  · rename_i rest
    exact (h rest rfl rfl).elim
  · rfl

lemma findLane_sound : ∀ (l : List Char), ∀ ds : List Char, findLane l = some ds → LaneDigits l ds := by
  intro l
  induction l using findLane.induct with
  | case1 => intro ds h; simp [findLane] at h
  | case2 rest hcond =>
      intro ds h
      obtain ⟨tw, htw⟩ : ∃ tw, rest.takeWhile Char.isDigit = tw := ⟨_, rfl⟩
      obtain ⟨dw, hdwE⟩ : ∃ dw, rest.dropWhile Char.isDigit = dw := ⟨_, rfl⟩
      rw [findLane_eq_L, if_pos hcond, htw] at h
      have hds : tw = ds := by injection h
      rcases Bool.and_eq_true_iff.mp hcond with ⟨hne, hterm⟩
      rw [htw] at hne
      rw [hdwE] at hterm
      have hsplit : tw ++ dw = rest := by
        rw [← htw, ← hdwE]; exact List.takeWhile_append_dropWhile _ _
      have hne2 : tw ≠ [] := by
        intro hnil; rw [hnil] at hne; simp at hne
      have hdig : ∀ x ∈ tw, x.isDigit = true := fun x hx =>
        List.mem_takeWhile_imp (htw.symm ▸ hx)
      rw [← hds]
      cases dw with
      | nil => simp [laneTermOk] at hterm
      | cons c0 post =>
          have hc0 : c0 = '.' ∨ c0 = '_' := by simpa [laneTermOk] using hterm
          refine ⟨[], c0, post, ?_, hne2, hdig, hc0⟩
          rw [← hsplit]
          simp
  | case3 rest hcond ih =>
      intro ds h
      rw [findLane_eq_L, if_neg hcond] at h
      exact laneDigits_cons _ (ih _ h)
  | case4 cs c hno ih =>
      intro ds h
      rw [findLane_eq_other c cs hno] at h
      exact laneDigits_cons _ (ih _ h)

lemma findLane_none : ∀ (l : List Char), findLane l = none → ¬ HasLaneToken l := by
  intro l
  induction l using findLane.induct with
  | case1 =>
      rintro - ⟨ds, pre, c0, post, heq, hne, _, _⟩
      simp at heq
  | case2 rest hcond =>
      intro h
      rw [findLane_eq_L, if_pos hcond] at h
      exact absurd h (by simp)
  | case3 rest hcond ih =>
      intro h hTok
      rw [findLane_eq_L, if_neg hcond] at h
      rcases hTok with ⟨ds, pre, c0, post, heq, hne, hdig, hc0⟩
      cases pre with
      | nil =>
          have hrest : rest = ds ++ c0 :: post := by simpa using heq
          have hc0d : c0.isDigit = false := by rcases hc0 with rfl | rfl <;> decide
          have hsp := takeWhile_all_append (p := Char.isDigit) post hdig hc0d
          apply hcond
          rw [hrest, hsp.1, hsp.2]
          refine Bool.and_eq_true_iff.mpr ⟨by simp [isEmpty_false_of_ne_nil hne], ?_⟩
          rcases hc0 with rfl | rfl <;> simp [laneTermOk]
      | cons p pre' =>
          have hx : 'L' :: rest = pre' ++ '_' :: 'L' :: (ds ++ c0 :: post) := by
            have h2 := heq
            simp only [List.cons_append] at h2
            exact ((List.cons.injEq _ _ _ _).mp h2).2
          exact ih h ⟨ds, pre', c0, post, hx, hne, hdig, hc0⟩
  | case4 cs c hno ih =>
      intro h hTok
      rw [findLane_eq_other c cs hno] at h
      rcases hTok with ⟨ds, pre, c0, post, heq, hne, hdig, hc0⟩
      cases pre with
      | nil =>
          simp only [List.nil_append] at heq
          have h1 := (List.cons.injEq _ _ _ _).mp heq
          exact hno (ds ++ c0 :: post) h1.1 h1.2
      | cons p pre' =>
          have hx : cs = pre' ++ '_' :: 'L' :: (ds ++ c0 :: post) := by
            simp only [List.cons_append] at heq
            exact ((List.cons.injEq _ _ _ _).mp heq).2
          exact ih h ⟨ds, pre', c0, post, hx, hne, hdig, hc0⟩

/-! ### The resolver branches -/

/-- `f` is recognized as a first-mate read by one of the two patterns. -/
def recognizedR1 (f : String) : Bool := matchesPattern1 f.data || matchesPattern2 f.data

lemma fileResult_eq_pair {root : String} {files : List String} {f : String}
    (h1 : recognizedR1 f = true) (h2 : expectedR2 f ∈ files) :
    fileResult root files f = some (Sum.inl (sample_name f, lane f.data,
      pathJoin root f, pathJoin root (expectedR2 f))) := by
  by_cases hp : matchesPattern1 f.data = true
  · rw [expectedR2, if_pos hp] at h2 ⊢
    rw [fileResult, if_pos hp, if_pos h2]
  · rcases Bool.or_eq_true_iff.mp h1 with h | h
    · exact absurd h hp
    · rw [expectedR2, if_neg hp] at h2 ⊢
      rw [fileResult, if_neg hp, if_pos h, if_pos h2]

lemma fileResult_eq_unmatched {root : String} {files : List String} {f : String}
    (h1 : recognizedR1 f = true) (h2 : expectedR2 f ∉ files) :
    fileResult root files f = some (Sum.inr f) := by
  by_cases hp : matchesPattern1 f.data = true
  · rw [expectedR2, if_pos hp] at h2
    rw [fileResult, if_pos hp, if_neg h2]
  · rcases Bool.or_eq_true_iff.mp h1 with h | h
    · exact absurd h hp
    · rw [expectedR2, if_neg hp] at h2
      rw [fileResult, if_neg hp, if_pos h, if_neg h2]

lemma fileResult_eq_none {root : String} {files : List String} {f : String}
    (hp1 : matchesPattern1 f.data = false) (hp2 : matchesPattern2 f.data = false) :
    fileResult root files f = none := by
  rw [fileResult, if_neg (by simp [hp1]), if_neg (by simp [hp2])]

lemma processDir_append (root : String) (all fs₁ fs₂ : List String) :
    processDir root all (fs₁ ++ fs₂) = processDir root all fs₁ ++ processDir root all fs₂ :=
  List.filterMap_append _ _ _

lemma collectResults_single (root : String) (fs : List String) :
    collectResults [(root, fs)] = processDir root fs fs := by
  simp [collectResults]

/-! ### Sorting machinery for `write_csv` -/

lemma pairKey_inj {a b : SamplePair} (h : pairKey a = pairKey b) : a = b := by
  obtain ⟨a1, a2, a3, a4⟩ := a
  obtain ⟨b1, b2, b3, b4⟩ := b
  simpa [pairKey, Prod.ext_iff] using h

instance : IsTrans SamplePair pairLe :=
  ⟨fun a b c h1 h2 => by
    unfold pairLe at *
    exact le_trans h1 h2⟩

instance : IsTotal SamplePair pairLe :=
  ⟨fun a b => by unfold pairLe; exact le_total _ _⟩

instance : IsAntisymm SamplePair pairLe :=
  ⟨fun a b h1 h2 => by
    unfold pairLe at *
    exact pairKey_inj (le_antisymm h1 h2)⟩

lemma insertionSort_eq_of_perm {α : Type*} (r : α → α → Prop) [DecidableRel r]
    [IsTotal α r] [IsTrans α r] [IsAntisymm α r] {l₁ l₂ : List α} (h : l₁.Perm l₂) :
    List.insertionSort r l₁ = List.insertionSort r l₂ :=
  List.eq_of_perm_of_sorted
    ((List.perm_insertionSort r l₁).trans (h.trans (List.perm_insertionSort r l₂).symm))
    (List.sorted_insertionSort r l₁) (List.sorted_insertionSort r l₂)

lemma flatten_perm {α : Type*} {ll₁ ll₂ : List (List α)}
    (h : List.Forall₂ List.Perm ll₁ ll₂) : ll₁.flatten.Perm ll₂.flatten := by
  induction h with
  | nil => simp
  | cons hab hrest ih => simpa using hab.append ih

lemma fileResult_congr (root f : String) {a₁ a₂ : List String} (h : a₁.Perm a₂) :
    fileResult root a₁ f = fileResult root a₂ f := by
  simp only [fileResult, h.mem_iff]

lemma processDir_perm (root : String) {a₁ a₂ fs₁ fs₂ : List String}
    (ha : a₁.Perm a₂) (hf : fs₁.Perm fs₂) :
    (processDir root a₁ fs₁).Perm (processDir root a₂ fs₂) := by
  unfold processDir
  have he : fileResult root a₁ = fileResult root a₂ :=
    funext fun f => fileResult_congr root f ha
  rw [he]
  exact hf.filterMap _

/-- Two walks list the same directories in order, each directory listing the
same files up to order. -/
def WalkEquiv (d₁ d₂ : List (String × List String)) : Prop :=
  List.Forall₂ (fun a b => a.1 = b.1 ∧ a.2.Perm b.2) d₁ d₂

lemma collectResults_perm {d₁ d₂ : List (String × List String)} (h : WalkEquiv d₁ d₂) :
    (collectResults d₁).Perm (collectResults d₂) := by
  unfold collectResults
  apply flatten_perm
  induction h with
  | nil => exact List.Forall₂.nil
  | cons hab hrest ih =>
      simp only [List.map_cons]
      refine List.Forall₂.cons ?_ ih
      obtain ⟨h1, h2⟩ := hab
      rename_i a b l₁ l₂
      rw [h1]
      exact processDir_perm b.1 h2 h2

lemma samples_perm {d₁ d₂ : List (String × List String)} (h : WalkEquiv d₁ d₂) :
    ((collect_samples d₁).1).Perm ((collect_samples d₂).1) :=
  (collectResults_perm h).filterMap _

lemma write_csv_perm {s₁ s₂ : List SamplePair} (h : s₁.Perm s₂) :
    write_csv s₁ = write_csv s₂ := by
  have hnames : ((s₁.map (fun t => t.1)).dedup).Perm ((s₂.map (fun t => t.1)).dedup) :=
    (h.map _).dedup
  have hsn : sortedNames s₁ = sortedNames s₂ := insertionSort_eq_of_perm _ hnames
  have hpid : patient_ids s₁ = patient_ids s₂ := by
    rw [patient_ids, patient_ids, hsn]
  have hrow : rowOf s₁ = rowOf s₂ := funext fun t => by
    simp [rowOf, patientId, hpid]
  have hsort : List.insertionSort pairLe s₁ = List.insertionSort pairLe s₂ :=
    insertionSort_eq_of_perm pairLe h
  rw [write_csv, write_csv, hsort, hrow]

/-! ### The patient-identifier mapping -/

lemma assignIds_map_fst : ∀ (l : List String) (n : Nat), (assignIds n l).map Prod.fst = l := by
  intro l
  induction l with
  | nil => intro n; rfl
  | cons s rest ih => intro n; simp [assignIds, ih]

lemma assignIds_map_snd : ∀ (l : List String) (n : Nat),
    (assignIds n l).map Prod.snd = List.range' n l.length := by
  intro l
  induction l with
  | nil => intro n; rfl
  | cons s rest ih => intro n; simp [assignIds, ih, List.range']

lemma assignIds_id_unique : ∀ {l : List String}, l.Nodup → ∀ {n : Nat} {s : String} {i j : Nat},
    (s, i) ∈ assignIds n l → (s, j) ∈ assignIds n l → i = j := by
  intro l
  induction l with
  | nil => intro _ n s i j hi; simp [assignIds] at hi
  | cons a as ih =>
      intro hnd n s i j hi hj
      have hmemfst : ∀ {m k : Nat}, (s, k) ∈ assignIds m as → s ∈ as := by
        intro m k hk
        have := List.mem_map_of_mem Prod.fst hk
        rwa [assignIds_map_fst] at this
      rcases List.mem_cons.mp hi with hi | hi <;> rcases List.mem_cons.mp hj with hj | hj
      · rw [Prod.mk.injEq] at hi hj; omega
      · rw [Prod.mk.injEq] at hi
        exact absurd (hmemfst hj) (hi.1 ▸ (List.nodup_cons.mp hnd).1)
      · rw [Prod.mk.injEq] at hj
        exact absurd (hmemfst hi) (hj.1 ▸ (List.nodup_cons.mp hnd).1)
      · exact ih (List.nodup_cons.mp hnd).2 hi hj

lemma sortedNames_sorted (samples : List SamplePair) :
    (sortedNames samples).Sorted (· ≤ ·) :=
  List.sorted_insertionSort _ _

lemma sortedNames_nodup (samples : List SamplePair) : (sortedNames samples).Nodup :=
  ((List.perm_insertionSort _ _).nodup_iff).mpr (List.nodup_dedup _)

lemma sortedNames_sorted_lt (samples : List SamplePair) :
    (sortedNames samples).Sorted (· < ·) :=
  ((sortedNames_sorted samples).and (sortedNames_nodup samples)).imp
    (fun h => lt_of_le_of_ne h.1 h.2)

lemma sortedNames_mem (samples : List SamplePair) (s : String) :
    s ∈ sortedNames samples ↔ s ∈ samples.map (fun t => t.1) := by
  rw [sortedNames, (List.perm_insertionSort _ _).mem_iff, List.mem_dedup]

lemma assignIds_length : ∀ (l : List String) (n : Nat), (assignIds n l).length = l.length := by
  intro l
  induction l with
  | nil => intro n; rfl
  | cons s rest ih => intro n; simp [assignIds, ih]

lemma pairsOf_append (rs₁ rs₂ : List (SamplePair ⊕ String)) :
    pairsOf (rs₁ ++ rs₂) = pairsOf rs₁ ++ pairsOf rs₂ :=
  List.filterMap_append _ _ _

lemma unmatchedOf_append (rs₁ rs₂ : List (SamplePair ⊕ String)) :
    unmatchedOf (rs₁ ++ rs₂) = unmatchedOf rs₁ ++ unmatchedOf rs₂ :=
  List.filterMap_append _ _ _

lemma pairsOf_cons_inr (f : String) (rs : List (SamplePair ⊕ String)) :
    pairsOf (Sum.inr f :: rs) = pairsOf rs := rfl

lemma unmatchedOf_cons_inr (f : String) (rs : List (SamplePair ⊕ String)) :
    unmatchedOf (Sum.inr f :: rs) = f :: unmatchedOf rs := rfl

/-- Order on CSV rows by (sample column, lane column). -/
def bySampleLane (r₁ r₂ : List String) : Prop :=
  r₁.getD 1 "" < r₂.getD 1 "" ∨ (r₁.getD 1 "" = r₂.getD 1 "" ∧ r₁.getD 2 "" ≤ r₂.getD 2 "")

lemma pairLe_imp_bySampleLane (samples : List SamplePair) {a b : SamplePair} (h : pairLe a b) :
    bySampleLane (rowOf samples a) (rowOf samples b) := by
  unfold pairLe pairKey at h
  rw [Prod.Lex.le_iff] at h
  unfold bySampleLane
  rcases h with h | ⟨he, h2⟩
  · exact Or.inl h
  · rw [Prod.Lex.le_iff] at h2
    rcases h2 with h2 | ⟨he2, _⟩
    · exact Or.inr ⟨he, le_of_lt h2⟩
    · exact Or.inr ⟨he, le_of_eq he2⟩

/-- A filename contains the bare shape `_L<digit>` somewhere (the claim's
reading of an embedded `_L<digits>` token, with no constraint on the character
that follows the digits). -/
def hasLaneSubstr : List Char → Bool
  | [] => false
  | c :: cs =>
      (match c, cs with
       | '_', 'L' :: d :: _ => d.isDigit
       | _, _ => false) || hasLaneSubstr cs

lemma missingKeys_mem {k : String} {keys : List String}
    (hk : k ∈ requiredKeys) (hnk : k ∉ keys) : k ∈ missingKeys keys :=
  List.mem_filter.mpr ⟨hk, by simp [List.elem_iff, hnk]⟩

/-! ## The claims -/

/-- **C1, counterexample.**  The claim says the resolver looks up the
first-mate filename with only the matched mate tag substituted and nothing
else changed.  For `x_19_1.fastq` that name is `x_19_2.fastq`; the directory
below contains exactly that file, so under the claim the resolver would emit
one pair and no unmatched read.  The code instead computes the lookup name
with `str.replace`, which substitutes *every* occurrence of `_1`, giving
`x_29_2.fastq`; that file is absent, so the code reports the file as
unmatched and emits no pair. -/
theorem r2_substitution_counterexample :
    matchesPattern1 "x_19_1.fastq".data = true ∧
    strReplace "_1" "_2" "x_19_1.fastq" = "x_29_2.fastq" ∧
    strReplace "_1" "_2" "x_19_1.fastq" ≠ "x_19_2.fastq" ∧
    collect_samples [("d", ["x_19_1.fastq", "x_19_2.fastq"])] = ([], ["x_19_1.fastq"]) := by
  decide

/-- **C1, amended.**  For every file recognized as a first-mate read, the
expected second-mate filename that the resolver looks up is the first-mate
filename with *every* (non-overlapping, left-to-right) occurrence of the
matched pattern's tag substring replaced (`_1`→`_2` for the first pattern,
`_R1`→`_R2` for the second), and it is searched for in the same directory as
the first-mate file: if that name is listed in the directory a pair with the
correspondingly joined paths is emitted, otherwise the file is reported
unmatched. -/
theorem r2_substitution (root : String) (files : List String) (f : String)
    (h : recognizedR1 f = true) :
    (expectedR2 f ∈ files →
      fileResult root files f = some (Sum.inl (sample_name f, lane f.data,
        pathJoin root f, pathJoin root (expectedR2 f))))
    ∧ (expectedR2 f ∉ files → fileResult root files f = some (Sum.inr f)) :=
  ⟨fun h2 => fileResult_eq_pair h h2, fun h2 => fileResult_eq_unmatched h h2⟩

/-- Witness for `r2_substitution` at a concrete directory. -/
theorem r2_substitution_witness :
    fileResult "d" ["a_1.fastq", "a_2.fastq"] "a_1.fastq" =
      some (Sum.inl ("a", "1", "d/a_1.fastq", "d/a_2.fastq")) :=
  ((r2_substitution "d" ["a_1.fastq", "a_2.fastq"] "a_1.fastq" (by decide)).1
    (by decide)).trans (by decide)

/-- **C2, counterexample.**  The claim says the emitted sample name strips the
mate tag, *any* numeric ordinal block and the extension.  The substitution in
the code only strips ordinal blocks of the exact shape `_00<digit>`: for the
matched pair `s_R1_010.fastq` / `s_R2_010.fastq` (ordinal `_010`), the emitted
sample name is the whole filename, not `s`. -/
theorem sample_name_counterexample :
    collect_samples [("d", ["s_R1_010.fastq", "s_R2_010.fastq"])] =
      ([("s_R1_010.fastq", "1", "d/s_R1_010.fastq", "d/s_R2_010.fastq")], []) ∧
    ("s_R1_010.fastq" : String) ≠ "s" := by
  decide

/-- **C2, amended.**  The emitted sample name of every matched pair is the
first-mate filename with the suffix matching
`(_L\d+)?(_R?1)(_00\d)?\.f(ast)?q(\.gz)?$` removed at the leftmost position
where the remainder of the name matches that shape in full (an adjacent lane
token, the mate tag, an ordinal block of the exact form `_00<digit>`, and the
fastq extension); a name with no such suffix is kept whole.  In particular,
for `sampleA_L001_R1_001.fastq.gz` with its mate present, exactly one pair
with sample name `sampleA` and lane `001` is emitted. -/
theorem sample_name_spec :
    (∀ l : List Char,
       (∃ i, sampleNameChars l = l.take i ∧ ReadSuffix (l.drop i) ∧
         ∀ j, j < i → ¬ ReadSuffix (l.drop j)) ∨
       (sampleNameChars l = l ∧ ∀ i, ¬ ReadSuffix (l.drop i)))
    ∧ (∀ (root : String) (files : List String) (f : String) (p : SamplePair),
        fileResult root files f = some (Sum.inl p) → p.1 = sample_name f)
    ∧ collect_samples
        [("d", ["sampleA_L001_R1_001.fastq.gz", "sampleA_L001_R2_001.fastq.gz"])] =
      ([("sampleA", "001", "d/sampleA_L001_R1_001.fastq.gz",
          "d/sampleA_L001_R2_001.fastq.gz")], []) := by
  refine ⟨sampleNameChars_spec, ?_, by decide⟩
  intro root files f p h
  rw [fileResult] at h
  split_ifs at h
  · injection h with h2
    injection h2 with h3
    exact (congrArg Prod.fst h3).symm
  · simp at h
  · injection h with h2
    injection h2 with h3
    exact (congrArg Prod.fst h3).symm
  · simp at h

/-- **C3.**  Every recognized first-mate file whose computed second mate is
absent from its directory contributes exactly one entry, `Sum.inr f` (one
UnmatchedRead, zero SamplePairs), and the walk continues over the files before
and after it; in particular `sampleC_R1.fastq` alone yields no pairs and one
unmatched read. -/
theorem unmatched_r1_spec (root : String) (fs₁ fs₂ : List String) (f : String)
    (h1 : recognizedR1 f = true) (h2 : expectedR2 f ∉ fs₁ ++ f :: fs₂) :
    (processDir root (fs₁ ++ f :: fs₂) (fs₁ ++ f :: fs₂) =
        processDir root (fs₁ ++ f :: fs₂) fs₁ ++ Sum.inr f ::
          processDir root (fs₁ ++ f :: fs₂) fs₂)
    ∧ ((collect_samples [(root, fs₁ ++ f :: fs₂)]).1 =
        pairsOf (processDir root (fs₁ ++ f :: fs₂) fs₁) ++
          pairsOf (processDir root (fs₁ ++ f :: fs₂) fs₂))
    ∧ ((collect_samples [(root, fs₁ ++ f :: fs₂)]).2 =
        unmatchedOf (processDir root (fs₁ ++ f :: fs₂) fs₁) ++ f ::
          unmatchedOf (processDir root (fs₁ ++ f :: fs₂) fs₂))
    ∧ collect_samples [("d", ["sampleC_R1.fastq"])] = ([], ["sampleC_R1.fastq"]) := by
  have hfr : fileResult root (fs₁ ++ f :: fs₂) f = some (Sum.inr f) :=
    fileResult_eq_unmatched h1 h2
  have hmain : processDir root (fs₁ ++ f :: fs₂) (fs₁ ++ f :: fs₂) =
      processDir root (fs₁ ++ f :: fs₂) fs₁ ++ Sum.inr f ::
        processDir root (fs₁ ++ f :: fs₂) fs₂ := by
    rw [processDir_append]
    congr 1
    simp [processDir, List.filterMap_cons, hfr]
  refine ⟨hmain, ?_, ?_, by decide⟩
  · show pairsOf (collectResults [(root, fs₁ ++ f :: fs₂)]) = _
    rw [collectResults_single, hmain, pairsOf_append, pairsOf_cons_inr]
  · show unmatchedOf (collectResults [(root, fs₁ ++ f :: fs₂)]) = _
    rw [collectResults_single, hmain, unmatchedOf_append, unmatchedOf_cons_inr]

/-- Witness for `unmatched_r1_spec` on the directory holding only
`sampleC_R1.fastq`. -/
theorem unmatched_r1_spec_witness :
    processDir "d" ["sampleC_R1.fastq"] ["sampleC_R1.fastq"] =
      processDir "d" ["sampleC_R1.fastq"] [] ++ Sum.inr "sampleC_R1.fastq" ::
        processDir "d" ["sampleC_R1.fastq"] [] :=
  (unmatched_r1_spec "d" [] [] "sampleC_R1.fastq" (by decide) (by decide)).1

/-- **C4.**  The `patient_ids` mapping lists the distinct sample names in
strictly increasing lexicographic order, assigns them the dense identifiers
`1, 2, …` in that order, contains exactly the sample names of the resolved
pairs, maps equal names to equal identifiers, and is stable under
reordering (hence across runs) of the pairs. -/
theorem patient_ids_spec (samples : List SamplePair) :
    ((patient_ids samples).map Prod.fst).Sorted (· < ·)
    ∧ (patient_ids samples).map Prod.snd = List.range' 1 (patient_ids samples).length
    ∧ (∀ s, s ∈ (patient_ids samples).map Prod.fst ↔ s ∈ samples.map (fun t => t.1))
    ∧ (∀ s i j, (s, i) ∈ patient_ids samples → (s, j) ∈ patient_ids samples → i = j)
    ∧ (∀ samples' : List SamplePair, samples.Perm samples' →
        patient_ids samples' = patient_ids samples) := by
  refine ⟨?_, ?_, ?_, ?_, ?_⟩
  · rw [patient_ids, assignIds_map_fst]
    exact sortedNames_sorted_lt samples
  · rw [patient_ids, assignIds_map_snd, assignIds_length]
  · intro s
    rw [patient_ids, assignIds_map_fst]
    exact sortedNames_mem samples s
  · intro s i j hi hj
    exact assignIds_id_unique (sortedNames_nodup samples) hi hj
  · intro samples' hperm
    rw [patient_ids, patient_ids]
    congr 1
    exact insertionSort_eq_of_perm _ ((hperm.symm.map _).dedup)

/-- **C5.**  The written manifest is the header row
`patient,sample,lane,fastq_1,fastq_2` followed by exactly one row per resolved
SamplePair (a permutation of the rows of the given pairs, each with the
patient column drawn from the patient-identifier mapping), and the body rows
are ordered by (sample name, lane) ascending. -/
theorem write_csv_spec (samples : List SamplePair) :
    ∃ rows, write_csv samples = csvHeader :: rows
      ∧ rows.Perm (samples.map (rowOf samples))
      ∧ List.Sorted bySampleLane rows := by
  refine ⟨(List.insertionSort pairLe samples).map (rowOf samples), rfl, ?_, ?_⟩
  · exact (List.perm_insertionSort pairLe samples).map _
  · exact List.Pairwise.map _ (fun a b h => pairLe_imp_bySampleLane samples h)
      (List.sorted_insertionSort pairLe samples)

/-- **C6, counterexample.**  The claim says the lane is the digits of an
embedded `_L<digits>` token whenever one is present.  `sample_L001R1_1.fastq`
contains the token `_L001`, but the lane regex requires the digits to be
followed by `.` or `_`, which fails here (`R` follows), so the code emits lane
`"1"` rather than `"001"` for this matched pair. -/
theorem lane_counterexample :
    hasLaneSubstr "sample_L001R1_1.fastq".data = true ∧
    collect_samples [("d", ["sample_L001R1_1.fastq", "sample_L001R1_2.fastq"])] =
      ([("sample_L001R1", "1", "d/sample_L001R1_1.fastq",
          "d/sample_L001R1_2.fastq")], []) ∧
    ("1" : String) ≠ "001" := by
  decide

/-- **C6, amended.**  For every matched pair the emitted lane is derived from
`re.search(r"_L(\d+)[._]")`: when the filename contains `_L` followed by a
nonempty digit run that is immediately followed by `.` or `_`, the lane is the
digit group of such a match; when no such terminated token exists the lane is
`"1"`.  In particular `sampleB_1.fq.gz` / `sampleB_2.fq.gz` yield exactly one
pair with sample `sampleB` and lane `"1"`. -/
theorem lane_spec :
    (∀ l : List Char,
       (∃ ds, findLane l = some ds ∧ LaneDigits l ds ∧ lane l = (⟨ds⟩ : String)) ∨
       (findLane l = none ∧ ¬ HasLaneToken l ∧ lane l = "1"))
    ∧ (∀ (root : String) (files : List String) (f : String) (p : SamplePair),
        fileResult root files f = some (Sum.inl p) → p.2.1 = lane f.data)
    ∧ collect_samples [("d", ["sampleB_1.fq.gz", "sampleB_2.fq.gz"])] =
        ([("sampleB", "1", "d/sampleB_1.fq.gz", "d/sampleB_2.fq.gz")], []) := by
  refine ⟨?_, ?_, by decide⟩
  · intro l
    cases hfl : findLane l with
    | some ds =>
        exact Or.inl ⟨ds, rfl, findLane_sound l ds hfl, by simp [lane, hfl]⟩
    | none =>
        exact Or.inr ⟨rfl, findLane_none l hfl, by simp [lane, hfl]⟩
  · intro root files f p h
    rw [fileResult] at h
    split_ifs at h
    · injection h with h2
      injection h2 with h3
      exact (congrArg (fun t : SamplePair => t.2.1) h3).symm
    · simp at h
    · injection h with h2
      injection h2 with h3
      exact (congrArg (fun t : SamplePair => t.2.1) h3).symm
    · simp at h

/-- **C7.**  The resolver-plus-manifest-writer is a deterministic function of
the directory contents: two walks that list the same directories with the same
files (in any order within each directory) produce the identical manifest. -/
theorem run_manifest_deterministic (d₁ d₂ : List (String × List String))
    (h : WalkEquiv d₁ d₂) : run_manifest d₁ = run_manifest d₂ := by
  rw [run_manifest, run_manifest]
  exact write_csv_perm (samples_perm h)

/-- Witness for `run_manifest_deterministic` on a directory listed in two
different orders. -/
theorem run_manifest_deterministic_witness :
    run_manifest [("d", ["a_1.fq", "a_2.fq"])] =
      run_manifest [("d", ["a_2.fq", "a_1.fq"])] :=
  run_manifest_deterministic _ _
    (List.Forall₂.cons ⟨rfl, List.Perm.swap _ _ _⟩ List.Forall₂.nil)

/-- **C8.**  A file that passes the loose looks-like-R1 check but matches
neither recognized first-mate pattern contributes nothing: its `fileResult`
is `none`, so it appears in neither the pairs list nor the unmatched list and
the walk proceeds over the remaining files. -/
theorem loose_r1_skipped (root : String) (all fs₁ fs₂ : List String) (f : String)
    (h1 : looksLikeR1 f.data = true) (hp1 : matchesPattern1 f.data = false)
    (hp2 : matchesPattern2 f.data = false) :
    fileResult root all f = none
    ∧ processDir root all (fs₁ ++ f :: fs₂) =
        processDir root all fs₁ ++ processDir root all fs₂ := by
  have hfr : fileResult root all f = none := fileResult_eq_none hp1 hp2
  refine ⟨hfr, ?_⟩
  rw [processDir_append]
  congr 1
  simp [processDir, List.filterMap_cons, hfr]

/-- Witness for `loose_r1_skipped` at `x_1.fastq.bak`, which contains
`_1.fastq` but does not end in a fastq extension. -/
theorem loose_r1_skipped_witness :
    fileResult "d" ["x_1.fastq.bak"] "x_1.fastq.bak" = none :=
  (loose_r1_skipped "d" ["x_1.fastq.bak"] [] [] "x_1.fastq.bak"
    (by decide) (by decide) (by decide)).1

/-- **C9.**  After the JSON configuration parses, the required-key validation
of the annotation runner aborts if and only if some required top-level key is
absent; the decision depends only on the key set (the values are never
inspected), and when a key is missing the run never reaches the pipeline
invocation. -/
theorem annotation_validation (config : List (String × String))
    (inputIsFile envGiven envExists : Bool) :
    ((∃ k, k ∈ requiredKeys ∧ k ∉ config.map Prod.fst) ↔
      annotationMain config inputIsFile envGiven envExists =
        RunOutcome.abortMissingKeys (missingKeys (config.map Prod.fst)))
    ∧ (∀ config' : List (String × String),
        config.map Prod.fst = config'.map Prod.fst →
        annotationMain config inputIsFile envGiven envExists =
          annotationMain config' inputIsFile envGiven envExists)
    ∧ ((∃ k, k ∈ requiredKeys ∧ k ∉ config.map Prod.fst) →
        annotationMain config inputIsFile envGiven envExists ≠
          RunOutcome.pipelineInvoked) := by
  refine ⟨⟨?_, ?_⟩, ?_, ?_⟩
  · rintro ⟨k, hk, hnk⟩
    have hne : missingKeys (config.map Prod.fst) ≠ [] :=
      List.ne_nil_of_mem (missingKeys_mem hk hnk)
    rw [annotationMain, if_pos (by simp [isEmpty_false_of_ne_nil hne])]
  · intro heq
    by_contra hno
    push_neg at hno
    have hm : missingKeys (config.map Prod.fst) = [] := by
      simp only [missingKeys, List.filter_eq_nil_iff]
      intro a ha
      simp [List.elem_iff, hno a ha]
    rw [annotationMain, hm] at heq
    simp only [List.isEmpty_nil, Bool.not_true, Bool.false_eq_true, if_false] at heq
    split_ifs at heq
  · intro config' hk
    rw [annotationMain, annotationMain, hk]
  · rintro ⟨k, hk, hnk⟩ hcontra
    have hne : missingKeys (config.map Prod.fst) ≠ [] :=
      List.ne_nil_of_mem (missingKeys_mem hk hnk)
    rw [annotationMain, if_pos (by simp [isEmpty_false_of_ne_nil hne])] at hcontra
    exact absurd hcontra (by simp)

/-- Witness for `annotation_validation`: a config with only `fasta` aborts at
the key check. -/
theorem annotation_validation_witness :
    annotationMain [("fasta", "ref.fa")] true false false =
      RunOutcome.abortMissingKeys
        (missingKeys ([("fasta", "ref.fa")].map Prod.fst)) :=
  (annotation_validation [("fasta", "ref.fa")] true false false).1.mp
    ⟨"vep_cache", by decide, by decide⟩

/-- **C10.**  For a whole number of seconds decomposed as
`h*3600 + m*60 + s` with `m < 60` and `s < 60` (the unique such
decomposition), `format_runtime` renders exactly `"<h>h <m>m <s>s"`. -/
theorem format_runtime_correct (h m s : Nat) (hm : m < 60) (hs : s < 60) :
    format_runtime (h * 3600 + m * 60 + s) =
      toString h ++ "h " ++ toString m ++ "m " ++ toString s ++ "s" := by
  have e1 : (h * 3600 + m * 60 + s) / 3600 = h := by omega
  have e2 : (h * 3600 + m * 60 + s) % 3600 / 60 = m := by omega
  have e3 : (h * 3600 + m * 60 + s) % 60 = s := by omega
  rw [format_runtime, e1, e2, e3]

/-- Witness for `format_runtime_correct` at 3723 seconds. -/
theorem format_runtime_correct_witness :
    2 < 60 ∧ 3 < 60 ∧ format_runtime 3723 = "1h 2m 3s" :=
  ⟨by decide, by decide,
    (format_runtime_correct 1 2 3 (by decide) (by decide)).trans (by decide)⟩

end SarekProc
